import Mathlib

/-!
Verification of the curlrevshell session broker and HTTPS control plane.

This file is a shallow embedding of the parts of the repository that the
checked properties are about:

* `internal/iobroker` : the session broker (`Broker.connect`, `Broker.proxyIn`,
  `Broker.proxyOut`) and its lifecycle events (`events.go`).
* `internal/hsrv/script.go` : the `/c` bootstrap-script handler and the
  callback-URL derivation (`Server.scriptHandler`, `Server.c2URL`).
* `lib/sstls` : self-signed certificate generation, the public-key
  fingerprint, and the certificate cache archive
  (`PubkeyFingerprint`, `GetCertificate`, `LoadCachedCertificate`,
  `SaveCertificate`).

Pure functions of the Go source become Lean functions; the stateful broker
becomes an explicit state type plus a step relation whose atomic steps are
exactly the regions the Go code executes under the broker mutex.  Calls into
the Go standard library and x/ repositories (crypto, punycode) are modelled
as explicit function parameters, since their internals are outside this
repository; everything defined in the repository itself is translated
directly from the source.
-/

set_option maxHeartbeats 1000000

/-! ## Session broker: state (iobroker.go, struct Broker)

The mutable state guarded by `Broker.mu` in the Go source is
`key` (the active session key), the two cancel-function slots `cancelIn`
and `cancelOut` (modelled by whether the slot holds a function), and the
`noMore` flag set on shutdown.  `bidirKey` is the random bidirectional
sentinel key chosen once in `New` and read-only afterwards.
-/

/-- A stream direction, mirroring `sDirection` with values `LVInput` and
`LVOutput`. -/
inductive SDirection
  | input
  | output
  deriving DecidableEq, Repr

/-- The string value of a direction (`string(dir)` in the source). -/
def SDirection.str : SDirection → String
  | .input => "input"
  | .output => "output"

/-- The direction capitalized, as produced by
`cases.Title(language.English)` on the direction string (`dirT`). -/
def SDirection.strTitle : SDirection → String
  | .input => "Input"
  | .output => "Output"

/-- The opposite direction: `ConnectIn` passes `&b.cancelIn` as its own slot
and `&b.cancelOut` as the sibling slot, `ConnectOut` the reverse. -/
def SDirection.other : SDirection → SDirection
  | .input => .output
  | .output => .input

/-- The mutex-guarded fields of `Broker`, plus the read-only `bidirKey`.
`cancelIn` / `cancelOut` are `true` when the corresponding cancel-function
slot is non-nil. -/
structure BrokerState where
  key : String
  cancelIn : Bool
  cancelOut : Bool
  noMore : Bool
  bidirKey : String
  deriving DecidableEq, Repr

/-- The cancel slot of the given direction (`*cancelUs` in `connect`). -/
def BrokerState.cancelUs (s : BrokerState) : SDirection → Bool
  | .input => s.cancelIn
  | .output => s.cancelOut

/-- The sibling cancel slot (`*cancelOther` in `connect`). -/
def BrokerState.cancelOther (s : BrokerState) (d : SDirection) : Bool :=
  s.cancelUs d.other

/-- Write a cancel slot. -/
def BrokerState.setSlot (s : BrokerState) : SDirection → Bool → BrokerState
  | .input, b => { s with cancelIn := b }
  | .output, b => { s with cancelOut := b }

/-- `subtle.ConstantTimeCompare(a, b)` returns 1 exactly when the two byte
strings are equal (equal length and equal contents); functionally this is
string equality, the constant-time property being a timing property with no
functional content. -/
def constantTimeCompareEq (a b : String) : Bool := a == b

/-- The outcome of the registration decision made by `Broker.connect` under
the broker mutex. -/
inductive ConnectDecision
  | silent
  | rejectKeyMissing
  | rejectDisconnecting
  | rejectDuplicate
  | rejectIncorrectKey
  | accept
  deriving DecidableEq, Repr

/-- The registration decision of `Broker.connect`, translated check by check
from the source:

1. `if b.noMore { return }` — silent return;
2. `if "" == key` — missing key;
3. `if "" == b.key && (nil != *cancelUs || nil != *cancelOther)` — previous
   shell still disconnecting;
4. `if nil != *cancelUs` — already connected in this direction;
5. `if "" != b.key && 1 != subtle.ConstantTimeCompare(key, b.key)` —
   incorrect key;
6. otherwise the connection is accepted. -/
def connectDecision (s : BrokerState) (dir : SDirection) (k : String) :
    ConnectDecision :=
  if s.noMore then .silent
  else if k == "" then .rejectKeyMissing
  else if s.key == "" && (s.cancelUs dir || s.cancelOther dir) then
    .rejectDisconnecting
  else if s.cancelUs dir then .rejectDuplicate
  else if s.key != "" && !(constantTimeCompareEq k s.key) then
    .rejectIncorrectKey
  else .accept

/-- Go `%q` on a key, for keys whose characters need no escaping (all keys
appearing in the checked properties are plain ASCII). -/
def goQuote (s : String) : String := "\"" ++ s ++ "\""

/-- The body of the red operator line (`b.Errorf`) emitted for each
rejecting branch of `Broker.connect`, with the format verbs substituted.
`none` for the silent branch and for acceptance.  The spellings
`bidirectinoal` and `bidirectonal` are typos present in the source. -/
def rejectErrorfBody (s : BrokerState) (dir : SDirection) (k : String) :
    Option String :=
  match connectDecision s dir k with
  | .silent => none
  | .accept => none
  | .rejectKeyMissing => some "Missing Key"
  | .rejectDisconnecting =>
      if k == s.bidirKey then
        some ("Rejected " ++ dir.str ++
          " side of bidirectional connection while waiting for shell disconnect")
      else
        some ("Rejected " ++ dir.str ++ " connection with ID " ++ goQuote k ++
          " while waiting for shell disconnect")
  | .rejectDuplicate =>
      if k == s.bidirKey then
        some ("Rejected unexpected " ++ dir.str ++
          " side of bidirectinoal connection")
      else
        some ("Rejected unexpected " ++ dir.str ++ " connection with ID " ++
          goQuote k)
  | .rejectIncorrectKey =>
      if k == s.bidirKey then
        some ("Rejected " ++ dir.str ++
          " side of bidirectonal connection, expected unidirectional " ++
          dir.str ++ " connection with ID " ++ goQuote s.key)
      else
        some ("Rejected " ++ dir.str ++ " connection with ID " ++ goQuote k ++
          ", expected " ++ goQuote s.key)

/-- The full red operator line for a rejection: `sendLine` formats it as
`[addr] body`. -/
def rejectOperatorLine (s : BrokerState) (dir : SDirection)
    (addr k : String) : Option String :=
  (rejectErrorfBody s dir k).map (fun b => "[" ++ addr ++ "] " ++ b)

/-- Whether the first list is a leading segment of the second. -/
def leadMatch : List Char → List Char → Bool
  | [], _ => true
  | _ :: _, [] => false
  | a :: as, b :: bs => a == b && leadMatch as bs

/-- Whether the first list occurs as a contiguous segment of the second. -/
def subMatch (needle : List Char) : List Char → Bool
  | [] => leadMatch needle []
  | b :: bs => leadMatch needle (b :: bs) || subMatch needle bs

/-- Whether `word` occurs verbatim inside `hay`. -/
def mentionsWord (hay word : String) : Bool := subMatch word.toList hay.toList

/-! ## Session broker: lifecycle transition system

Each constructor of `BrokerStep` is one of the atomic mutex-guarded regions
of `Broker.connect`: the registration decision together with the accepting
assignments (`*cancelUs = cancel; ...; b.key = key` and the conditional
`connected` event), the teardown bookkeeping after the proxy returns
(`b.key = ""; *cancelUs = nil` and the conditional `disconnected` event),
and the shutdown flag set by `Do` (`b.noMore = true`).  Events are recorded
in the order they are sent on `b.evCh`; sends happen while holding `b.mu`,
so this order is well defined. -/

/-- Lifecycle event types (`EventTypeConnected`, `EventTypeDisconnected`). -/
inductive BrokerEvent
  | connected
  | disconnected
  deriving DecidableEq, Repr

/-- The accepting assignments of `Broker.connect`: store the child cancel
function in our slot and set `b.key` to the presented key. -/
def applyAccept (s : BrokerState) (dir : SDirection) (k : String) :
    BrokerState :=
  { s.setSlot dir true with key := k }

/-- `if nil != *cancelUs && nil != *cancelOther` after acceptance: both
sides present means the shell is paired and a `connected` event is sent. -/
def acceptEvents (s : BrokerState) : List BrokerEvent :=
  if s.cancelIn && s.cancelOut then [.connected] else []

/-- The teardown bookkeeping of `Broker.connect` after the proxy returns:
`b.key = ""` and `*cancelUs = nil` (the sibling is cancelled but its own
slot is cleared only by its own teardown). -/
def applyTeardown (s : BrokerState) (dir : SDirection) : BrokerState :=
  { s.setSlot dir false with key := "" }

/-- `if nil == *cancelUs && nil == *cancelOther` after teardown: both sides
gone means a `disconnected` event is sent. -/
def teardownEvents (s : BrokerState) : List BrokerEvent :=
  if !s.cancelIn && !s.cancelOut then [.disconnected] else []

/-- A broker state together with the sequence of events sent so far. -/
structure BrokerSys where
  st : BrokerState
  trace : List BrokerEvent
  deriving DecidableEq, Repr

/-- The state of a freshly constructed broker (`New`): empty key, both
cancel slots nil, accepting connections, sentinel key `bk`. -/
def initBroker (bk : String) : BrokerSys :=
  ⟨⟨"", false, false, false, bk⟩, []⟩

/-- One atomic mutex-guarded region of the broker. -/
inductive BrokerStep : BrokerSys → BrokerSys → Prop
  | connect (σ : BrokerSys) (dir : SDirection) (k : String)
      (h : connectDecision σ.st dir k = .accept) :
      BrokerStep σ ⟨applyAccept σ.st dir k,
        σ.trace ++ acceptEvents (applyAccept σ.st dir k)⟩
  | teardown (σ : BrokerSys) (dir : SDirection)
      (h : σ.st.cancelUs dir = true) :
      BrokerStep σ ⟨applyTeardown σ.st dir,
        σ.trace ++ teardownEvents (applyTeardown σ.st dir)⟩
  | shutdown (σ : BrokerSys) :
      BrokerStep σ ⟨{ σ.st with noMore := true }, σ.trace⟩

/-- The broker states and event traces reachable from a fresh broker with
sentinel key `bk`. -/
inductive BrokerReachable (bk : String) : BrokerSys → Prop
  | init : BrokerReachable bk (initBroker bk)
  | step {σ σ' : BrokerSys} :
      BrokerReachable bk σ → BrokerStep σ σ' → BrokerReachable bk σ'

/-! ## Event bus (events.go)

`Broker.processEvents` is a single dispatcher goroutine: it takes events off
`b.evCh` one at a time and, holding `b.evMu`, sends each to every channel in
`b.evListeners`.  `AddEventListener` / `RemoveEventListener` mutate the
listener set under the same mutex.  The model interleaves dispatches with
listener additions and removals; `received` records the sequence of events
each listener has been sent. -/

/-- An operation serialized by the event-bus mutex `evMu`. -/
inductive BusOp
  | dispatch (e : BrokerEvent)
  | add (l : Nat)
  | remove (l : Nat)
  deriving DecidableEq, Repr

/-- The dispatcher state: the listener set, the events sent to each
listener so far, and the events dispatched so far (in `evCh` order). -/
structure BusState where
  listeners : List Nat
  received : Nat → List BrokerEvent
  sent : List BrokerEvent

/-- One mutex-guarded bus operation: `processEvents` sends the event to
every current listener; `AddEventListener` inserts into the set;
`RemoveEventListener` deletes from the set. -/
def busStep (st : BusState) : BusOp → BusState
  | .dispatch e =>
      { st with
        sent := st.sent ++ [e]
        received := fun l =>
          if l ∈ st.listeners then st.received l ++ [e] else st.received l }
  | .add l =>
      if l ∈ st.listeners then st
      else { st with listeners := l :: st.listeners }
  | .remove l =>
      { st with listeners := st.listeners.filter (fun x => x != l) }

/-- Run the bus from an initial listener set with nothing yet delivered. -/
def busRun (ls0 : List Nat) (ops : List BusOp) : BusState :=
  List.foldl busStep ⟨ls0, fun _ => [], []⟩ ops

/-- Every `connected` in the trace is immediately followed by a
`disconnected`. -/
def ConnFollowed (tr : List BrokerEvent) : Prop :=
  ∀ i, tr.get? i = some BrokerEvent.connected →
    tr.get? (i + 1) = some BrokerEvent.disconnected

/-- The inductive invariant tying the broker state to its event trace: no
`connected` is immediately followed by another `connected`, and the trace
ends in an unmatched `connected` exactly when a session is paired or a
paired session is partway through teardown. -/
def TraceStateInv (σ : BrokerSys) : Prop :=
  List.Chain'
    (fun a b => a = BrokerEvent.connected → b = BrokerEvent.disconnected)
    σ.trace ∧
  (σ.trace.getLast? = some BrokerEvent.connected ↔
    ((σ.st.cancelIn = true ∧ σ.st.cancelOut = true) ∨
     ((σ.st.cancelIn = true ∨ σ.st.cancelOut = true) ∧ σ.st.key = "")))

/-! ## Broker proxy loops (iobroker.go, proxyIn and proxyOut) -/

/-- An outcome of the select in `Broker.proxyIn`: a line received from the
operator-input channel, the channel closing, or the context becoming done
(`causeIsCanceled` records whether `context.Cause(ctx)` satisfies
`errors.Is(err, context.Canceled)`). -/
inductive InChEv
  | line (s : String)
  | closed
  | ctxDone (causeIsCanceled : Bool)
  deriving DecidableEq, Repr

/-- A call made by `proxyIn` on the writer: `io.WriteString` or the
writer's flush hook (`FlushError` or `http.Flusher`). -/
inductive WriterCall
  | write (s : String)
  | flush
  deriving DecidableEq, Repr

/-- The error results `proxyIn` can return: a wrapped write error
(`sending line: ...`), a wrapped flush error (`flushing line: ...`), or a
context cause that is not `context.Canceled`, returned as-is. -/
inductive ProxyInErr
  | sendErr
  | flushErr
  | ctxCause
  deriving DecidableEq, Repr

/-- `Broker.proxyIn` over the sequence of select outcomes, the writer
behavior given by `wOk i` / `fOk i` (whether the i-th write / flush call
succeeds).  Yields the ordered writer calls made and `some r` once the
loop returns (`r = none` being a nil error), or `none` while it is still
blocked waiting for events.  Each received line has a newline appended
(`l += "\n"`) before the single `io.WriteString` call, and each
successful write is followed by a flush. -/
def proxyInRun (wOk fOk : Nat → Bool) :
    List InChEv → Nat → List WriterCall × Option (Option ProxyInErr)
  | [], _ => ([], none)
  | ev :: rest, i =>
    match ev with
    | .closed => ([], some none)
    | .ctxDone c => ([], some (if c then none else some .ctxCause))
    | .line s =>
      if !(wOk i) then ([.write (s ++ "\n")], some (some .sendErr))
      else if !(fOk i) then
        ([.write (s ++ "\n"), .flush], some (some .flushErr))
      else
        let r := proxyInRun wOk fOk rest (i + 1)
        (.write (s ++ "\n") :: .flush :: r.1, r.2)

/-- The Go error values `proxyOut` distinguishes; `other n` stands for any
further distinct error value. -/
inductive GoErr
  | eof
  | canceled
  | closedPipe
  | unexpectedEOF
  | other (n : Nat)
  deriving DecidableEq, Repr

/-- One result of a call `r.Read(buf)` made by the read pump with its
2048-byte buffer: the bytes read (at most 2048 of them, by the `io.Reader`
contract, since `len(buf) = 2048`) and the error, if any, returned
alongside them. -/
structure ReadRes where
  data : String
  err : Option GoErr
  deriving DecidableEq, Repr

/-- One value sent on `proxyOut`'s internal channel (`outRet`). -/
structure OutRet where
  o : String
  err : Option GoErr
  deriving DecidableEq, Repr

/-- `opshell.Color`, in the order of its `iota` constants. -/
inductive OColor
  | colorNone
  | colorBlack
  | colorRed
  | colorGreen
  | colorYellow
  | colorBlue
  | colorMagenta
  | colorCyan
  | colorWhite
  | colorReset
  deriving DecidableEq, Repr

/-- `opshell.CLine`, the record sent on the operator-output channel. -/
structure CLine where
  color : OColor
  line : String
  prompt : String
  noTimestamp : Bool
  plain : Bool
  deriving DecidableEq, Repr

/-- The record `proxyOut` sends for a chunk:
`opshell.CLine Line: o.o, Plain: true` with every other field left at its
zero value (so `Color` is `ColorNone`, no prompt, no timestamp flag). -/
def mkPlainCLine (s : String) : CLine :=
  ⟨OColor.colorNone, s, "", false, true⟩

/-- The read-pump goroutine of `proxyOut`, in a run during which the
context is not cancelled: for each read it sends the data when `0 != n`,
then the error when `nil != err`, stopping after the first error. -/
def pumpEmits : List ReadRes → List OutRet
  | [] => []
  | r :: rest =>
      (if r.data ≠ "" then [⟨r.data, none⟩] else []) ++
      match r.err with
      | some e => [⟨"", some e⟩]
      | none => pumpEmits rest

/-- The receiving loop of `proxyOut` over the internal channel contents
followed by the channel closing: each non-empty chunk is sent to the
operator-output channel as a plain record (and logged with the chunk as
structured data); the loop stops at the first error, taking `io.EOF` when
the channel closes first. -/
def proxyOutLoop : List OutRet → List CLine × GoErr
  | [] => ([], .eof)
  | o :: rest =>
      let delivered := if o.o ≠ "" then [mkPlainCLine o.o] else []
      match o.err with
      | some e => (delivered, e)
      | none =>
          let r := proxyOutLoop rest
          (delivered ++ r.1, r.2)

/-- The final classification in `proxyOut`: `io.EOF`, `context.Canceled`,
`io.ErrClosedPipe` and `io.ErrUnexpectedEOF` indicate normal termination
and are converted to a nil return; every other error is returned. -/
def classifyOut (e : GoErr) : Option GoErr :=
  if e = .eof ∨ e = .canceled ∨ e = .closedPipe ∨ e = .unexpectedEOF then
    none
  else some e

/-- `Broker.proxyOut` over a reader whose successive `Read` calls return
`script`, in a run where the context is not cancelled: the plain records
delivered to the operator-output channel, in order, and the returned
value. -/
def proxyOutRun (script : List ReadRes) : List CLine × Option GoErr :=
  let r := proxyOutLoop (pumpEmits script)
  (r.1, classifyOut r.2)

/-- The reads the pump completes before stopping: everything up to and
including the first read returning an error. -/
def readsToErr : List ReadRes → List ReadRes
  | [] => []
  | r :: rest =>
      r :: (match r.err with
            | some _ => []
            | none => readsToErr rest)

/-- The terminal error of a reader script: its first error, or `io.EOF`
when the script is exhausted without one. -/
def scriptErr : List ReadRes → GoErr
  | [] => .eof
  | r :: rest =>
      match r.err with
      | some e => e
      | none => scriptErr rest

/-! ## Bootstrap-script handler (internal/hsrv/script.go) -/

/-- The fields of an incoming `GET /c` request consulted by
`Server.c2URL`: whether `r.ParseForm()` fails, `r.Form.Get("c2")` after
parsing (the query string merged with any form body; empty when absent),
the `c2` request header, `r.Host`, and the TLS SNI
(`r.TLS.ServerName`). -/
structure ScriptReq where
  parseFormErr : Bool
  formC2 : String
  headerC2 : String
  host : String
  sni : String
  deriving DecidableEq, Repr

/-- Why `c2URL` could not determine a callback URL. -/
inductive C2Err
  | parseForm
  | punycode
  | outOfIdeas
  deriving DecidableEq, Repr

/-- `net.JoinHostPort`: bracket the host when it contains a colon. -/
def joinHostPort (host port : String) : String :=
  if host.contains ':' then "[" ++ host ++ "]:" ++ port
  else host ++ ":" ++ port

/-- `Server.c2URL`, translated from the source: the `c2` form/query
parameter, then the `c2` header, then the punycoded Host header, then the
SNI with the listen port appended when it is not `443` (`HTTPSPort`).
`idna` stands for `idna.ToASCII` (an x/net library call, modelled as a
parameter; `none` on error) and `lp` for the listener port that
`net.SplitHostPort` extracts from `s.l.Addr().String()` (which succeeds
on a real listener address). -/
def c2URL (idna : String → Option String) (lp : String) (r : ScriptReq) :
    Except C2Err String :=
  if r.parseFormErr then .error .parseForm
  else if r.formC2 != "" then .ok r.formC2
  else if r.headerC2 != "" then .ok r.headerC2
  else
    match idna r.host with
    | none => .error .punycode
    | some p =>
      if p != "" then .ok p
      else if r.sni != "" then
        .ok (if lp != "443" then joinHostPort r.sni lp else r.sni)
      else .error .outOfIdeas

/-- A base-36 digit as produced by `strconv.FormatUint`, whose alphabet
is `0123456789abcdefghijklmnopqrstuvwxyz` (48 is `0`, 87 + 10 is `a`). -/
def digit36 (n : Nat) : Char :=
  if n < 10 then Char.ofNat (48 + n) else Char.ofNat (87 + n)

/-- The base-36 digits of `n`, most significant first, as built by
`strconv.FormatUint(n, 36)` by repeated division. -/
def toBase36 (n : Nat) : List Char :=
  if h : n < 36 then [digit36 n]
  else toBase36 (n / 36) ++ [digit36 (n % 36)]
decreasing_by exact Nat.div_lt_self (by omega) (by omega)

/-- `strconv.FormatUint(n, 36)`. -/
def formatUint36 (n : Nat) : String := String.mk (toBase36 n)

/-- The numeric value of a base-36 digit character. -/
def digitVal36 (c : Char) : Nat :=
  if 97 ≤ c.toNat then c.toNat - 87 else c.toNat - 48

/-- The numeric value of a base-36 digit string, most significant digit
first. -/
def val36 (cs : List Char) : Nat :=
  cs.foldl (fun a c => 36 * a + digitVal36 c) 0

/-- `hsrv.TemplateParams`: the values rendered into the callback
script. -/
structure TemplateParams where
  pubkeyFP : String
  url : String
  id : String
  deriving DecidableEq, Repr

/-- The response of `Server.scriptHandler`. -/
inductive ScriptResp
  | internalError
  | badRequest
  | ok (params : TemplateParams)
  deriving DecidableEq, Repr

/-- `Server.scriptHandler`: read and parse the template (500 on failure),
derive the callback URL (400 on failure), execute the template (500 on
failure), otherwise serve the script rendered with the listener
fingerprint `fp`, the fresh session ID
`strconv.FormatUint(rand.Uint64(), 36)` — `rv` being this call's random
draw — and the derived URL. -/
def scriptHandler (tmplErr renderErr : Bool)
    (idna : String → Option String) (lp fp : String) (rv : Nat)
    (r : ScriptReq) : ScriptResp :=
  if tmplErr then .internalError
  else
    match c2URL idna lp r with
    | .error _ => .badRequest
    | .ok c2 =>
      if renderErr then .internalError
      else .ok ⟨fp, c2, formatUint36 rv⟩

/-! ## Self-signed TLS certificates (lib/sstls) -/

/-- Byte strings (PEM blobs, DER blobs, hashes). -/
abbrev Bytes := List Nat

/-- A parsed x509 leaf certificate, reduced to the field the fingerprint
depends on: its public key (abstract). -/
structure X509Leaf where
  pub : Nat
  deriving DecidableEq, Repr

/-- The part of `tls.Certificate` the archive round-trip touches:
`Certificate[0]` (the leaf DER) and the parsed `Leaf`. -/
structure TLSCert where
  certDER0 : Bytes
  leaf : Option X509Leaf
  deriving DecidableEq, Repr

/-- The Go crypto, x509 and encoding library calls used by `sstls`,
modelled as explicit deterministic functions: `marshalPKIX` is
`x509.MarshalPKIXPublicKey` (the DER of the SubjectPublicKeyInfo, `none`
on error), `sha256sum` is `crypto/sha256`, `b64` is
`base64.StdEncoding.EncodeToString`, `x509KeyPair` is `tls.X509KeyPair`
on the two PEM blobs giving `Certificate[0]` (`none` on parse failure),
and `parseCert` is `x509.ParseCertificate` on DER. -/
structure CryptoLib where
  marshalPKIX : Nat → Option Bytes
  sha256sum : Bytes → Bytes
  b64 : Bytes → String
  x509KeyPair : Bytes → Bytes → Option Bytes
  parseCert : Bytes → Option X509Leaf

/-- `tls.X509KeyPair` followed by `x509.ParseCertificate` of
`cert.Certificate[0]` with the result stored as the leaf — the shared
tail of both `generateSelfSignedCert` and `LoadCachedCertificate` in the
source. -/
def keyPairWithLeaf (L : CryptoLib) (certPEM keyPEM : Bytes) :
    Option TLSCert :=
  match L.x509KeyPair certPEM keyPEM with
  | none => none
  | some der0 =>
    match L.parseCert der0 with
    | none => none
    | some leaf => some ⟨der0, some leaf⟩

/-- `PubkeyFingerprint`: DER-marshal the public key, SHA-256 it, base64
it. -/
def pubkeyFingerprint (L : CryptoLib) (leaf : X509Leaf) : Option String :=
  match L.marshalPKIX leaf.pub with
  | none => none
  | some der => some (L.b64 (L.sha256sum der))

/-- `PubkeyFingerprintTLS`: the fingerprint of the certificate's leaf; a
missing leaf is an error. -/
def pubkeyFingerprintTLS (L : CryptoLib) (c : TLSCert) : Option String :=
  match c.leaf with
  | none => none
  | some leaf => pubkeyFingerprint L leaf

/-- `txtarCertFile`, the name of the cert field in the archive. -/
def txtarCertFile : String := "cert"

/-- `txtarKeyFile`, the name of the key field in the archive. -/
def txtarKeyFile : String := "key"

/-- A parsed txtar archive: its files in order (name, contents).  The
RFC 3339 comment is irrelevant to loading. -/
structure TxtArchive where
  files : List (String × Bytes)
  deriving DecidableEq, Repr

/-- The file-scanning loop of `LoadCachedCertificate` (`for _, f := range
ta.Files`): a later file of the same name overwrites an earlier one, and
a missing file leaves the nil slice. -/
def findArchiveFile (ta : TxtArchive) (name : String) : Bytes :=
  ta.files.foldl (fun acc f => if f.1 = name then f.2 else acc) []

/-- The failures of `LoadCachedCertificate`, as distinct values: the
cert-file does not exist, the archive lacks the cert or the key field,
the key pair does not parse, or the leaf does not re-parse.  The source
builds each of these with `fmt.Errorf`; no shared sentinel value
exists. -/
inductive LoadErr
  | notExist
  | missingCert
  | missingKey
  | keyPairParse
  | leafParse
  deriving DecidableEq, Repr

/-- `LoadCachedCertificate` over the parsed archive; `none` models a
cert-file that does not exist, where `txtar.ParseFile` fails with an
error wrapping `fs.ErrNotExist`. -/
def loadCachedCertificate (L : CryptoLib) :
    Option TxtArchive → Except LoadErr TLSCert
  | none => .error .notExist
  | some ta =>
    let certB := findArchiveFile ta txtarCertFile
    let keyB := findArchiveFile ta txtarKeyFile
    if certB = [] then .error .missingCert
    else if keyB = [] then .error .missingKey
    else
      match L.x509KeyPair certB keyB with
      | none => .error .keyPairParse
      | some der0 =>
        match L.parseCert der0 with
        | none => .error .leafParse
        | some leaf => .ok ⟨der0, some leaf⟩

/-- `SaveCertificate`: the archive written for the PEM pair (its
generation-timestamp comment does not matter for loading). -/
def saveCertificate (certPEM keyPEM : Bytes) : TxtArchive :=
  ⟨[(txtarCertFile, certPEM), (txtarKeyFile, keyPEM)]⟩

/-- `GetCertificate` failures. -/
inductive GetErr
  | loadCorrupt (e : LoadErr)
  | genFailed
  deriving DecidableEq, Repr

/-- `GetCertificate` over the cert-file state: `fs = none` models an
empty cert-file name (no load, no save), `fs = some none` a named file
that does not exist, `fs = some (some ta)` a named file whose archive
parses to `ta`.  `genPEMs` are the PEM blobs
`GenerateSelfSignedCertificate` produces for this call (the random key
generation made explicit); the generated `tls.Certificate` is
`keyPairWithLeaf` of them, exactly as in the source.  Returns the
certificate together with the resulting cert-file state. -/
def getCertificate (L : CryptoLib) (fs : Option (Option TxtArchive))
    (genPEMs : Bytes × Bytes) :
    Except GetErr (TLSCert × Option (Option TxtArchive)) :=
  match fs with
  | some f =>
    match loadCachedCertificate L f with
    | .ok c => .ok (c, some f)
    | .error .notExist =>
        match keyPairWithLeaf L genPEMs.1 genPEMs.2 with
        | none => .error .genFailed
        | some c =>
            .ok (c, some (some (saveCertificate genPEMs.1 genPEMs.2)))
    | .error e => .error (.loadCorrupt e)
  | none =>
    match keyPairWithLeaf L genPEMs.1 genPEMs.2 with
    | none => .error .genFailed
    | some c => .ok (c, none)

/-! ## Theorems -/

/-- Claim C1: the registration decision made under the broker mutex by
`ConnectIn`/`ConnectOut` applies exactly these checks in this order: not
accepting means a silent return; an empty key is rejected as key-missing;
an empty active key with either cancel slot still occupied is rejected as
teardown-in-progress; an occupied own-direction slot is rejected as a
duplicate; a non-empty active key constant-time-unequal to the presented
key is rejected as incorrect; otherwise the connection is accepted, a child
cancel function is stored in the direction's slot, and the active key
becomes the presented key. -/
theorem connect_checks_in_order (s : BrokerState) (dir : SDirection)
    (k : String) :
    (s.noMore = true → connectDecision s dir k = .silent) ∧
    (s.noMore = false → k = "" →
      connectDecision s dir k = .rejectKeyMissing) ∧
    (s.noMore = false → k ≠ "" → s.key = "" →
      (s.cancelUs dir = true ∨ s.cancelOther dir = true) →
      connectDecision s dir k = .rejectDisconnecting) ∧
    (s.noMore = false → k ≠ "" →
      (s.key = "" → s.cancelUs dir = false ∧ s.cancelOther dir = false) →
      s.cancelUs dir = true →
      connectDecision s dir k = .rejectDuplicate) ∧
    (s.noMore = false → k ≠ "" → s.cancelUs dir = false → s.key ≠ "" →
      k ≠ s.key →
      connectDecision s dir k = .rejectIncorrectKey) ∧
    (s.noMore = false → k ≠ "" →
      (s.key = "" → s.cancelUs dir = false ∧ s.cancelOther dir = false) →
      s.cancelUs dir = false → (s.key = "" ∨ k = s.key) →
      connectDecision s dir k = .accept ∧
      (applyAccept s dir k).cancelUs dir = true ∧
      (applyAccept s dir k).key = k ∧
      (applyAccept s dir k).cancelOther dir = s.cancelOther dir) := by
  unfold connectDecision constantTimeCompareEq applyAccept
  refine ⟨?_, ?_, ?_, ?_, ?_, ?_⟩
  · intro h; simp [h]
  · intro h hk; simp [h, hk]
  · intro h hk hkey hc
    have hc' : (s.cancelUs dir || s.cancelOther dir) = true := by
      rcases hc with hc | hc <;> simp [hc]
    simp [h, hk, hkey, hc', beq_iff_eq]
  · intro h hk h3 hus
    by_cases hkey : s.key = ""
    · exact absurd hus (by simp [(h3 hkey).1])
    · simp [h, hk, hkey, hus]
  · intro h hk hus hkey hne
    simp [h, hk, hkey, hus, hne]
  · intro h hk h3 hus hor
    constructor
    · by_cases hkey : s.key = ""
      · simp [h, hk, hus, hkey, (h3 hkey).2]
      · have hkk : k = s.key := hor.resolve_left hkey
        simp [h, hk, hus, hkey, hkk]
    · cases dir <;>
        simp [BrokerState.cancelUs, BrokerState.cancelOther,
          SDirection.other, BrokerState.setSlot]

/-- Witness for claim C1: with shutdown in progress the broker returns
silently, and an idle broker accepts a fresh key, storing it. -/
theorem connect_checks_in_order_witness :
    connectDecision ⟨"", false, false, true, "B"⟩ .input "abc" =
      .silent ∧
    connectDecision ⟨"", false, false, false, "B"⟩ .input "abc" =
      .accept := by
  constructor
  · exact (connect_checks_in_order ⟨"", false, false, true, "B"⟩
      .input "abc").1 rfl
  · exact ((connect_checks_in_order ⟨"", false, false, false, "B"⟩
      .input "abc").2.2.2.2.2 rfl (by decide) (fun _ => by decide)
      (by decide) (Or.inl rfl)).1

/-- Claim C2 counterexample: the state reached by pairing a session with
key `abc` and letting its input half tear down first is reachable, and in
it the active key is empty while the output cancel slot is still occupied,
so `active_key` empty is not equivalent to both cancel slots being empty. -/
theorem key_iff_idle_counterexample :
    BrokerReachable "B"
      ⟨⟨"", false, true, false, "B"⟩, [BrokerEvent.connected]⟩ ∧
    ¬(((⟨"", false, true, false, "B"⟩ : BrokerState).key = "") ↔
      ((⟨"", false, true, false, "B"⟩ : BrokerState).cancelIn = false ∧
       (⟨"", false, true, false, "B"⟩ : BrokerState).cancelOut = false)) := by
  constructor
  · have h0 := @BrokerReachable.init "B"
    have h1 := h0.step (BrokerStep.connect _ .input "abc" (by decide))
    have h2 := h1.step (BrokerStep.connect _ .output "abc" (by decide))
    have h3 := h2.step (BrokerStep.teardown _ .input (by decide))
    exact h3
  · decide

/-- Claim C2 (amended): in every reachable broker state, if both cancel
slots are empty then the active key is empty; the converse direction fails
while a prior session is tearing down. -/
theorem broker_no_cancels_key_empty {bk : String} {σ : BrokerSys}
    (h : BrokerReachable bk σ) :
    σ.st.cancelIn = false → σ.st.cancelOut = false → σ.st.key = "" := by
  induction h with
  | init => intro _ _; rfl
  | step _ hs ih =>
      cases hs with
      | connect dir k hacc =>
          intro h1 h2
          cases dir
          · exact absurd h1 (by simp [applyAccept, BrokerState.setSlot])
          · exact absurd h2 (by simp [applyAccept, BrokerState.setSlot])
      | teardown dir hdir =>
          intro _ _
          cases dir <;> simp [applyTeardown, BrokerState.setSlot]
      | shutdown =>
          intro h1 h2
          exact ih h1 h2

/-- Witness for the amended claim C2, at the freshly constructed broker. -/
theorem broker_no_cancels_key_empty_witness :
    (initBroker "B").st.key = "" :=
  broker_no_cancels_key_empty BrokerReachable.init rfl rfl

/-- Claim C3 counterexample: a fully registered bidirectional session (both
slots taken by the sentinel key `BDK`) is reachable; a `ConnectIn`
presenting key `abc` is rejected, but its red operator line is `Rejected
unexpected input connection with ID "abc"`, which does not mention
`bidirectional`. -/
theorem bidir_isolation_counterexample :
    BrokerReachable "BDK"
      ⟨⟨"BDK", true, true, false, "BDK"⟩, [BrokerEvent.connected]⟩ ∧
    connectDecision ⟨"BDK", true, true, false, "BDK"⟩ .input "abc" ≠
      ConnectDecision.accept ∧
    rejectErrorfBody ⟨"BDK", true, true, false, "BDK"⟩ .input "abc" =
      some "Rejected unexpected input connection with ID \"abc\"" ∧
    mentionsWord "Rejected unexpected input connection with ID \"abc\""
      "bidirectional" = false := by
  refine ⟨?_, by decide, by decide, by decide⟩
  have h0 := @BrokerReachable.init "BDK"
  have h1 := h0.step (BrokerStep.connect _ .input "BDK" (by decide))
  have h2 := h1.step (BrokerStep.connect _ .output "BDK" (by decide))
  exact h2

/-- Claim C3 (amended): while the active key is the bidirectional sentinel,
any half presenting a different key is rejected — never accepted — and the
red operator line is `Missing Key` for an empty key, the
duplicate-connection line quoting the presented key when that direction is
taken, and otherwise the incorrect-key line quoting the presented and the
expected (sentinel) keys; the lines containing the word `bidirectional`
are emitted only when the presented key is itself the sentinel. -/
theorem bidir_isolation (s : BrokerState) (dir : SDirection) (k : String)
    (hst : s.key = s.bidirKey) (hbk : s.bidirKey ≠ "")
    (hnm : s.noMore = false) (hk : k ≠ s.bidirKey) :
    connectDecision s dir k ≠ ConnectDecision.accept ∧
    rejectErrorfBody s dir k = some (
      if k = "" then "Missing Key"
      else if s.cancelUs dir = true then
        "Rejected unexpected " ++ dir.str ++ " connection with ID " ++
          goQuote k
      else
        "Rejected " ++ dir.str ++ " connection with ID " ++ goQuote k ++
          ", expected " ++ goQuote s.key) := by
  have hkey : s.key ≠ "" := by rw [hst]; exact hbk
  have hks : k ≠ s.key := by rw [hst]; exact hk
  by_cases hke : k = ""
  · subst hke
    have hd : connectDecision s dir "" = .rejectKeyMissing := by
      simp [connectDecision, hnm]
    exact ⟨by simp [hd], by simp [rejectErrorfBody, hd]⟩
  · by_cases hcu : s.cancelUs dir = true
    · have hd : connectDecision s dir k = .rejectDuplicate := by
        simp [connectDecision, hnm, hke, hkey, hcu]
      refine ⟨by simp [hd], ?_⟩
      simp only [rejectErrorfBody, hd]
      simp [hk, hke, hcu]
    · have hd : connectDecision s dir k = .rejectIncorrectKey := by
        simp [connectDecision, hnm, hke, hkey, hcu, hks,
          constantTimeCompareEq]
      refine ⟨by simp [hd], ?_⟩
      simp only [rejectErrorfBody, hd]
      simp [hk, hke, hcu]

/-- Witness for the amended claim C3: with a one-sided bidirectional
session holding sentinel `BDK`, an output half presenting `abc` is
rejected with the incorrect-key line. -/
theorem bidir_isolation_witness :
    connectDecision ⟨"BDK", true, false, false, "BDK"⟩ .output "abc" ≠
      ConnectDecision.accept ∧
    rejectErrorfBody ⟨"BDK", true, false, false, "BDK"⟩ .output "abc" =
      some "Rejected output connection with ID \"abc\", expected \"BDK\"" := by
  have h := bidir_isolation ⟨"BDK", true, false, false, "BDK"⟩ .output "abc"
    rfl (by decide) rfl (by decide)
  exact ⟨h.1, h.2.trans (by decide)⟩

/-- Inversion of an accepting registration decision of `Broker.connect`. -/
theorem accept_inversion {s : BrokerState} {dir : SDirection} {k : String}
    (h : connectDecision s dir k = ConnectDecision.accept) :
    s.noMore = false ∧ k ≠ "" ∧
    (s.key = "" → s.cancelUs dir = false ∧ s.cancelOther dir = false) ∧
    s.cancelUs dir = false ∧ (s.key ≠ "" → k = s.key) := by
  unfold connectDecision at h
  split_ifs at h with h1 h2 h3 h4 h5
  refine ⟨by simpa using h1, by simpa using h2, ?_, by simpa using h4, ?_⟩
  · intro hkey
    simp [hkey] at h3
    exact h3
  · intro hkey
    simp [constantTimeCompareEq, hkey] at h5
    exact h5

/-- Acceptance events, read off through the accepting direction. -/
theorem acceptEvents_eq (s : BrokerState) (dir : SDirection) :
    acceptEvents s =
      if s.cancelUs dir && s.cancelOther dir then [BrokerEvent.connected]
      else [] := by
  cases dir <;>
    simp [acceptEvents, BrokerState.cancelUs, BrokerState.cancelOther,
      SDirection.other, Bool.and_comm]

/-- Teardown events, read off through the direction tearing down. -/
theorem teardownEvents_eq (s : BrokerState) (dir : SDirection) :
    teardownEvents s =
      if !s.cancelUs dir && !s.cancelOther dir then [BrokerEvent.disconnected]
      else [] := by
  cases dir <;>
    simp [teardownEvents, BrokerState.cancelUs, BrokerState.cancelOther,
      SDirection.other, Bool.and_comm]

/-- The right-hand side of the trace-state invariant is symmetric in the
two cancel slots. -/
theorem traceInvRHS_eq (s : BrokerState) (dir : SDirection) :
    (((s.cancelIn = true ∧ s.cancelOut = true) ∨
      ((s.cancelIn = true ∨ s.cancelOut = true) ∧ s.key = "")) ↔
    ((s.cancelUs dir = true ∧ s.cancelOther dir = true) ∨
      ((s.cancelUs dir = true ∨ s.cancelOther dir = true) ∧ s.key = ""))) := by
  cases dir <;>
    simp only [BrokerState.cancelUs, BrokerState.cancelOther,
      SDirection.other] <;>
    tauto

/-- Fields of the accepting assignments. -/
theorem applyAccept_fields (s : BrokerState) (dir : SDirection) (k : String) :
    (applyAccept s dir k).cancelUs dir = true ∧
    (applyAccept s dir k).cancelOther dir = s.cancelOther dir ∧
    (applyAccept s dir k).key = k := by
  cases dir <;>
    simp [applyAccept, BrokerState.setSlot, BrokerState.cancelUs,
      BrokerState.cancelOther, SDirection.other]

/-- Fields of the teardown bookkeeping. -/
theorem applyTeardown_fields (s : BrokerState) (dir : SDirection) :
    (applyTeardown s dir).cancelUs dir = false ∧
    (applyTeardown s dir).cancelOther dir = s.cancelOther dir ∧
    (applyTeardown s dir).key = "" := by
  cases dir <;>
    simp [applyTeardown, BrokerState.setSlot, BrokerState.cancelUs,
      BrokerState.cancelOther, SDirection.other]

/-- Any single broker step preserves the trace-state invariant. -/
theorem traceStateInv_step {σ σ' : BrokerSys} (hs : BrokerStep σ σ')
    (ih : TraceStateInv σ) : TraceStateInv σ' := by
  obtain ⟨ihc, ihe⟩ := ih
  cases hs with
  | connect dir k hacc =>
      obtain ⟨hnm, hkne, h3, hus, h5⟩ := accept_inversion hacc
      obtain ⟨hf1, hf2, hf3⟩ := applyAccept_fields σ.st dir k
      have hev : acceptEvents (applyAccept σ.st dir k) =
          if σ.st.cancelOther dir = true then [BrokerEvent.connected]
          else [] := by
        rw [acceptEvents_eq _ dir, hf1, hf2]
        by_cases hco : σ.st.cancelOther dir = true
        · simp [hco]
        · have hco' : σ.st.cancelOther dir = false := by simpa using hco
          simp [hco']
      unfold TraceStateInv
      refine ⟨?_, ?_⟩
      · show List.Chain' _ (σ.trace ++ acceptEvents (applyAccept σ.st dir k))
        rw [hev]
        by_cases hco : σ.st.cancelOther dir = true
        · rw [if_pos hco]
          have hkeynz : σ.st.key ≠ "" := fun hk0 =>
            absurd hco (by simp [(h3 hk0).2])
          have hlast : ¬ σ.trace.getLast? = some BrokerEvent.connected := by
            intro hl
            rcases (traceInvRHS_eq σ.st dir).mp (ihe.mp hl) with
              ⟨ha, _⟩ | ⟨_, hb⟩
            · exact absurd ha (by simp [hus])
            · exact absurd hb hkeynz
          refine List.Chain'.append ihc (List.chain'_singleton _) ?_
          intro x hx y hy hxc
          exact absurd (hxc ▸ Option.mem_def.mp hx) hlast
        · rw [if_neg hco, List.append_nil]
          exact ihc
      · show (σ.trace ++ acceptEvents (applyAccept σ.st dir k)).getLast? =
            some BrokerEvent.connected ↔ _
        rw [hev, traceInvRHS_eq _ dir, hf1, hf2, hf3]
        by_cases hco : σ.st.cancelOther dir = true
        · rw [if_pos hco, List.getLast?_concat]
          simp [hco]
        · have hco' : σ.st.cancelOther dir = false := by simpa using hco
          rw [if_neg hco, List.append_nil]
          constructor
          · intro hl
            rcases (traceInvRHS_eq σ.st dir).mp (ihe.mp hl) with
              ⟨ha, _⟩ | ⟨ha, _⟩
            · exact absurd ha (by simp [hus])
            · rcases ha with ha | ha
              · exact absurd ha (by simp [hus])
              · exact absurd ha (by simp [hco'])
          · intro hr
            rcases hr with ⟨_, hb⟩ | ⟨_, hb⟩
            · exact absurd hb (by simp [hco'])
            · exact absurd hb hkne
  | teardown dir hdir =>
      obtain ⟨hf1, hf2, hf3⟩ := applyTeardown_fields σ.st dir
      have hev : teardownEvents (applyTeardown σ.st dir) =
          if σ.st.cancelOther dir = true then []
          else [BrokerEvent.disconnected] := by
        rw [teardownEvents_eq _ dir, hf1, hf2]
        by_cases hco : σ.st.cancelOther dir = true
        · simp [hco]
        · have hco' : σ.st.cancelOther dir = false := by simpa using hco
          simp [hco']
      unfold TraceStateInv
      refine ⟨?_, ?_⟩
      · show List.Chain' _ (σ.trace ++ teardownEvents (applyTeardown σ.st dir))
        rw [hev]
        by_cases hco : σ.st.cancelOther dir = true
        · rw [if_pos hco, List.append_nil]
          exact ihc
        · rw [if_neg hco]
          refine List.Chain'.append ihc (List.chain'_singleton _) ?_
          intro x hx y hy hxc
          have hy' := Option.mem_def.mp hy
          simp only [List.head?_cons, Option.some.injEq] at hy'
          exact hy'.symm
      · show (σ.trace ++ teardownEvents (applyTeardown σ.st dir)).getLast? =
            some BrokerEvent.connected ↔ _
        rw [hev, traceInvRHS_eq _ dir, hf1, hf2, hf3]
        by_cases hco : σ.st.cancelOther dir = true
        · rw [if_pos hco, List.append_nil]
          constructor
          · intro _
            exact Or.inr ⟨Or.inr hco, rfl⟩
          · intro _
            exact ihe.mpr ((traceInvRHS_eq σ.st dir).mpr
              (Or.inl ⟨hdir, hco⟩))
        · have hco' : σ.st.cancelOther dir = false := by simpa using hco
          rw [if_neg hco, List.getLast?_concat]
          simp [hco']
  | shutdown =>
      exact ⟨ihc, ihe⟩

/-- The trace-state invariant holds in every reachable broker state. -/
theorem traceStateInv_reachable {bk : String} {σ : BrokerSys}
    (h : BrokerReachable bk σ) : TraceStateInv σ := by
  induction h with
  | init => exact ⟨List.chain'_nil, by simp [initBroker]⟩
  | step _ hs ih => exact traceStateInv_step hs ih

/-- In an idle reachable state, every `connected` in the trace is
immediately followed by a `disconnected`. -/
theorem connFollowed_of_idle {bk : String} {σ : BrokerSys}
    (h : BrokerReachable bk σ) (h1 : σ.st.cancelIn = false)
    (h2 : σ.st.cancelOut = false) : ConnFollowed σ.trace := by
  obtain ⟨hch, hiff⟩ := traceStateInv_reachable h
  have hend : ¬ σ.trace.getLast? = some BrokerEvent.connected := by
    intro hc
    rcases hiff.mp hc with ⟨ha, _⟩ | ⟨ha, _⟩
    · exact absurd ha (by simp [h1])
    · rcases ha with ha | ha
      · exact absurd ha (by simp [h1])
      · exact absurd ha (by simp [h2])
  intro i hi
  have hilen : i < σ.trace.length := (List.get?_eq_some.mp hi).1
  by_cases hnext : i + 1 < σ.trace.length
  · have hR := List.chain'_iff_get.mp hch i (by omega)
    have hgi : σ.trace.get ⟨i, hilen⟩ = BrokerEvent.connected := by
      have hg := List.get?_eq_get hilen
      rw [hg] at hi
      exact Option.some.inj hi
    rw [List.get?_eq_get hnext]
    exact congrArg some (hR hgi)
  · exfalso
    apply hend
    have hieq : i = σ.trace.length - 1 := by omega
    rw [List.getLast?_eq_getElem?, ← List.get?_eq_getElem?, ← hieq]
    exact hi

/-- Each listener only ever receives a subsequence of the dispatched event
order, preserved step by step. -/
theorem busStep_received_sublist {st : BusState} {l : Nat}
    (h : (st.received l).Sublist st.sent) (op : BusOp) :
    ((busStep st op).received l).Sublist (busStep st op).sent := by
  cases op with
  | dispatch e =>
      simp only [busStep]
      by_cases hm : l ∈ st.listeners
      · simpa [hm] using h.append (List.Sublist.refl [e])
      · simpa [hm] using h.trans (List.sublist_append_left _ _)
  | add l' =>
      simp only [busStep]
      split <;> exact h
  | remove l' => exact h

/-- Folding bus operations preserves the received-is-subsequence bound. -/
theorem busSteps_received_sublist (ops : List BusOp) (st : BusState) (l : Nat)
    (h : (st.received l).Sublist st.sent) :
    ((List.foldl busStep st ops).received l).Sublist
      (List.foldl busStep st ops).sent := by
  induction ops generalizing st with
  | nil => exact h
  | cons op rest ih => exact ih _ (busStep_received_sublist h op)

/-- A listener that is subscribed and never removed receives exactly the
dispatched sequence. -/
theorem busSteps_received_eq (ops : List BusOp) (st : BusState) (l : Nat)
    (hmem : l ∈ st.listeners)
    (hnr : ∀ op ∈ ops, op ≠ BusOp.remove l)
    (heq : st.received l = st.sent) :
    (List.foldl busStep st ops).received l =
      (List.foldl busStep st ops).sent := by
  induction ops generalizing st with
  | nil => exact heq
  | cons op rest ih =>
      refine ih (busStep st op) ?_ (fun o ho => hnr o (List.mem_cons_of_mem _ ho)) ?_
      · cases op with
        | dispatch e => simpa [busStep] using hmem
        | add l' =>
            simp only [busStep]
            split
            · exact hmem
            · exact List.mem_cons_of_mem _ hmem
        | remove l' =>
            have hne : l' ≠ l := by
              intro hll
              exact hnr (BusOp.remove l') (List.mem_cons_self _ _)
                (by rw [hll])
            simp only [busStep]
            simp [List.mem_filter, hmem, bne_iff_ne, Ne.symm hne]
      · cases op with
        | dispatch e => simp [busStep, hmem, heq]
        | add l' =>
            simp only [busStep]
            split <;> exact heq
        | remove l' => exact heq

/-- Claim C4 counterexample: a lone input half that registers with key
`abc` and tears down without ever being paired emits a `disconnected`
event, so the reachable trace `[disconnected]` contains a `disconnected`
with no matching earlier `connected`, and `disconnected` is not emitted
only when the second of two paired halves finishes teardown. -/
theorem lifecycle_event_order_counterexample :
    BrokerReachable "B"
      ⟨⟨"", false, false, false, "B"⟩, [BrokerEvent.disconnected]⟩ ∧
    [BrokerEvent.disconnected].count BrokerEvent.connected = 0 := by
  constructor
  · have h0 := @BrokerReachable.init "B"
    have h1 := h0.step (BrokerStep.connect _ .input "abc" (by decide))
    have h2 := h1.step (BrokerStep.teardown _ .input (by decide))
    exact h2
  · decide

/-- Claim C4 (amended): `connected` is emitted exactly when the second
half of a pair registers and `disconnected` exactly when the last active
half finishes teardown — for a paired session the second half to finish,
but also when a lone, never-paired half tears down.  Consequently in every
reachable trace no `connected` is immediately followed by another
`connected`, and once the broker is idle every `connected` is immediately
followed by a `disconnected`.  The single dispatcher delivers to each
listener a subsequence of the dispatched order, and listeners subscribed
throughout observe identical sequences. -/
theorem lifecycle_event_order :
    (∀ (bk : String) (σ : BrokerSys), BrokerReachable bk σ →
      List.Chain' (fun a b => a = BrokerEvent.connected →
        b = BrokerEvent.disconnected) σ.trace ∧
      (σ.st.cancelIn = false → σ.st.cancelOut = false →
        ConnFollowed σ.trace)) ∧
    (∀ (ls0 : List Nat) (ops : List BusOp) (l : Nat),
      ((busRun ls0 ops).received l).Sublist (busRun ls0 ops).sent) ∧
    (∀ (ls0 : List Nat) (ops : List BusOp) (l1 l2 : Nat),
      l1 ∈ ls0 → l2 ∈ ls0 →
      (∀ op ∈ ops, op ≠ BusOp.remove l1 ∧ op ≠ BusOp.remove l2) →
      (busRun ls0 ops).received l1 = (busRun ls0 ops).received l2) := by
  refine ⟨?_, ?_, ?_⟩
  · intro bk σ h
    exact ⟨(traceStateInv_reachable h).1,
      fun h1 h2 => connFollowed_of_idle h h1 h2⟩
  · intro ls0 ops l
    exact busSteps_received_sublist ops _ l (List.nil_sublist _)
  · intro ls0 ops l1 l2 hm1 hm2 hnr
    have e1 := busSteps_received_eq ops ⟨ls0, fun _ => [], []⟩ l1 hm1
      (fun o ho => (hnr o ho).1) rfl
    have e2 := busSteps_received_eq ops ⟨ls0, fun _ => [], []⟩ l2 hm2
      (fun o ho => (hnr o ho).2) rfl
    exact e1.trans e2.symm

/-- Witness for the amended claim C4: two listeners subscribed for the
whole run receive the same sequence. -/
theorem lifecycle_event_order_witness :
    (busRun [1, 2] [BusOp.dispatch BrokerEvent.connected]).received 1 =
      (busRun [1, 2] [BusOp.dispatch BrokerEvent.connected]).received 2 :=
  lifecycle_event_order.2.2 [1, 2] [BusOp.dispatch BrokerEvent.connected] 1 2
    (by decide) (by decide) (by decide)

/-- `proxyIn` over a run of successfully written lines followed by
further events: each line is written with its newline and flushed, in
order, before the remaining events are handled. -/
theorem proxyInRun_ok_append (wOk fOk : Nat → Bool)
    (hw : ∀ j, wOk j = true) (hf : ∀ j, fOk j = true)
    (ls : List String) (evs : List InChEv) (i : Nat) :
    proxyInRun wOk fOk (ls.map InChEv.line ++ evs) i =
      (ls.flatMap
          (fun s => [WriterCall.write (s ++ "\n"), WriterCall.flush]) ++
          (proxyInRun wOk fOk evs (i + ls.length)).1,
        (proxyInRun wOk fOk evs (i + ls.length)).2) := by
  induction ls generalizing i with
  | nil => simp
  | cons s rest ih =>
      have h1 : proxyInRun wOk fOk
          (InChEv.line s :: (rest.map InChEv.line ++ evs)) i =
          (WriterCall.write (s ++ "\n") :: WriterCall.flush ::
            (proxyInRun wOk fOk (rest.map InChEv.line ++ evs) (i + 1)).1,
           (proxyInRun wOk fOk (rest.map InChEv.line ++ evs) (i + 1)).2) := by
        simp [proxyInRun, hw i, hf i]
      simp only [List.map_cons, List.cons_append, List.length_cons]
      have harith : i + (rest.length + 1) = (i + 1) + rest.length := by omega
      rw [harith, h1, ih (i + 1)]
      simp

/-- Claim C5 counterexample: when the context is cancelled with a cause
other than `context.Canceled`, `proxyIn` does not return normally — it
returns the cause as an error — so a cancellation does not always yield a
normal return. -/
theorem proxyIn_counterexample :
    proxyInRun (fun _ => true) (fun _ => true) [InChEv.ctxDone false] 0 =
      ([], some (some ProxyInErr.ctxCause)) ∧
    (some (some ProxyInErr.ctxCause) : Option (Option ProxyInErr)) ≠
      some none :=
  ⟨rfl, by decide⟩

/-- Claim C5 (amended): for every string taken from the operator-input
channel while the proxy loop runs, exactly that string followed by a
single newline is written, and the flush hook is invoked after each
successful write; the loop returns normally when the channel closes or
the context is cancelled with cause `context.Canceled` (as when the
sibling cancels), returns the cause as an error when it is not
`Canceled`, and returns a wrapped error when a write or flush fails
(after the failing write, with no flush after a failed write). -/
theorem proxyIn_spec :
    (∀ (ls : List String) (wOk fOk : Nat → Bool),
      (∀ j, wOk j = true) → (∀ j, fOk j = true) →
      proxyInRun wOk fOk (ls.map InChEv.line ++ [InChEv.closed]) 0 =
        (ls.flatMap
          (fun s => [WriterCall.write (s ++ "\n"), WriterCall.flush]),
         some none)) ∧
    (∀ (ls : List String) (wOk fOk : Nat → Bool),
      (∀ j, wOk j = true) → (∀ j, fOk j = true) →
      proxyInRun wOk fOk (ls.map InChEv.line ++ [InChEv.ctxDone true]) 0 =
        (ls.flatMap
          (fun s => [WriterCall.write (s ++ "\n"), WriterCall.flush]),
         some none)) ∧
    (∀ (ls : List String) (wOk fOk : Nat → Bool),
      (∀ j, wOk j = true) → (∀ j, fOk j = true) →
      proxyInRun wOk fOk (ls.map InChEv.line ++ [InChEv.ctxDone false]) 0 =
        (ls.flatMap
          (fun s => [WriterCall.write (s ++ "\n"), WriterCall.flush]),
         some (some ProxyInErr.ctxCause))) ∧
    (∀ (s : String) (rest : List InChEv) (i : Nat) (wOk fOk : Nat → Bool),
      wOk i = false →
      proxyInRun wOk fOk (InChEv.line s :: rest) i =
        ([WriterCall.write (s ++ "\n")], some (some ProxyInErr.sendErr))) ∧
    (∀ (s : String) (rest : List InChEv) (i : Nat) (wOk fOk : Nat → Bool),
      wOk i = true → fOk i = false →
      proxyInRun wOk fOk (InChEv.line s :: rest) i =
        ([WriterCall.write (s ++ "\n"), WriterCall.flush],
         some (some ProxyInErr.flushErr))) := by
  refine ⟨?_, ?_, ?_, ?_, ?_⟩
  · intro ls wOk fOk hw hf
    rw [proxyInRun_ok_append wOk fOk hw hf ls [InChEv.closed] 0]
    simp [proxyInRun]
  · intro ls wOk fOk hw hf
    rw [proxyInRun_ok_append wOk fOk hw hf ls [InChEv.ctxDone true] 0]
    simp [proxyInRun]
  · intro ls wOk fOk hw hf
    rw [proxyInRun_ok_append wOk fOk hw hf ls [InChEv.ctxDone false] 0]
    simp [proxyInRun]
  · intro s rest i wOk fOk hwi
    simp [proxyInRun, hwi]
  · intro s rest i wOk fOk hwi hfi
    simp [proxyInRun, hwi, hfi]

/-- Witness for the amended claim C5: two lines `ls` and `pwd` are
written with newlines and flushed in order, and the loop ends normally
when the channel closes. -/
theorem proxyIn_spec_witness :
    proxyInRun (fun _ => true) (fun _ => true)
      [InChEv.line "ls", InChEv.line "pwd", InChEv.closed] 0 =
      ([WriterCall.write "ls\n", WriterCall.flush,
        WriterCall.write "pwd\n", WriterCall.flush], some none) := by
  have h := proxyIn_spec.1 ["ls", "pwd"] (fun _ => true) (fun _ => true)
    (fun _ => rfl) (fun _ => rfl)
  simpa using h

/-- Running `proxyOut`'s receive loop over what the pump emits yields
exactly the non-empty read chunks, wrapped as plain records, and the
script's terminal error. -/
theorem proxyOutLoop_pump (l : List ReadRes) :
    proxyOutLoop (pumpEmits l) =
      ((((readsToErr l).map ReadRes.data).filter (fun s => s != "")).map
        mkPlainCLine,
       scriptErr l) := by
  induction l with
  | nil => simp [pumpEmits, proxyOutLoop, readsToErr, scriptErr]
  | cons r rest ih =>
      rcases hre : r.err with _ | e
      · by_cases hd : r.data = ""
        · simp [pumpEmits, readsToErr, scriptErr, hre, hd, ih]
        · simp [pumpEmits, proxyOutLoop, readsToErr, scriptErr, hre, hd, ih,
            mkPlainCLine]
      · by_cases hd : r.data = ""
        · simp [pumpEmits, proxyOutLoop, readsToErr, scriptErr, hre, hd]
        · simp [pumpEmits, proxyOutLoop, readsToErr, scriptErr, hre, hd,
            mkPlainCLine]

/-- Every read the pump completes is a read of the script. -/
theorem readsToErr_sub {l : List ReadRes} {r : ReadRes} :
    r ∈ readsToErr l → r ∈ l := by
  induction l with
  | nil => intro h; simpa [readsToErr] using h
  | cons a rest ih =>
      intro h
      rcases hae : a.err with _ | e
      · simp only [readsToErr, hae, List.mem_cons] at h
        rcases h with h | h
        · exact h ▸ List.mem_cons_self _ _
        · exact List.mem_cons_of_mem _ (ih h)
      · simp only [readsToErr, hae, List.mem_cons] at h
        rcases h with h | h
        · exact h ▸ List.mem_cons_self _ _
        · exact absurd h (by simp)

/-- Claim C6: `proxyOut` reads through a 2048-byte buffer, so every
delivered chunk is at most 2048 bytes; the non-empty chunks are delivered
to the operator-output channel in FIFO order as plain records (Plain set,
color `ColorNone`, no prompt, no timestamp flag) and logged as structured
data; zero-byte reads enqueue nothing; and the run returns nil exactly
when its terminal error is `io.EOF`, `context.Canceled`,
`io.ErrClosedPipe` or `io.ErrUnexpectedEOF`, returning any other error. -/
theorem proxyOut_spec (script : List ReadRes)
    (hlen : ∀ r ∈ script, r.data.length ≤ 2048) :
    (proxyOutRun script).1 =
      (((readsToErr script).map ReadRes.data).filter (fun s => s != "")).map
        mkPlainCLine ∧
    (∀ cl ∈ (proxyOutRun script).1,
      cl.line.length ≤ 2048 ∧ cl.plain = true ∧
      cl.color = OColor.colorNone ∧ cl.prompt = "" ∧
      cl.noTimestamp = false ∧ cl.line ≠ "") ∧
    ((proxyOutRun script).2 = none ↔
      (scriptErr script = .eof ∨ scriptErr script = .canceled ∨
       scriptErr script = .closedPipe ∨
       scriptErr script = .unexpectedEOF)) ∧
    (∀ e : GoErr,
      scriptErr script = e →
      ¬(e = .eof ∨ e = .canceled ∨ e = .closedPipe ∨
        e = .unexpectedEOF) →
      (proxyOutRun script).2 = some e) := by
  have hchar := proxyOutLoop_pump script
  have h1 : (proxyOutRun script).1 =
      (((readsToErr script).map ReadRes.data).filter (fun s => s != "")).map
        mkPlainCLine := by
    simp only [proxyOutRun, hchar]
  have h2 : (proxyOutRun script).2 = classifyOut (scriptErr script) := by
    simp only [proxyOutRun, hchar]
  refine ⟨h1, ?_, ?_, ?_⟩
  · intro cl hcl
    rw [h1] at hcl
    obtain ⟨s, hs, hcls⟩ := List.mem_map.mp hcl
    obtain ⟨hsm, hsp⟩ := List.mem_filter.mp hs
    obtain ⟨r, hrm, hrd⟩ := List.mem_map.mp hsm
    have hrs : r ∈ script := readsToErr_sub hrm
    have hlr := hlen r hrs
    subst hcls
    refine ⟨?_, rfl, rfl, rfl, rfl, ?_⟩
    · simpa [mkPlainCLine, hrd] using hlr
    · simpa [mkPlainCLine] using (by simpa using hsp : s ≠ "")
  · rw [h2]
    unfold classifyOut
    by_cases hc : scriptErr script = GoErr.eof ∨
        scriptErr script = GoErr.canceled ∨
        scriptErr script = GoErr.closedPipe ∨
        scriptErr script = GoErr.unexpectedEOF
    · simp [hc]
    · simp [hc]
  · intro e he hne
    rw [h2, he]
    unfold classifyOut
    simp [hne]

/-- Witness for claim C6: a 2-byte chunk followed by EOF is delivered as
one plain record, and the run ends normally. -/
theorem proxyOut_spec_witness :
    (proxyOutRun [⟨"hi", none⟩, ⟨"", some GoErr.eof⟩]).1 =
      [mkPlainCLine "hi"] ∧
    (proxyOutRun [⟨"hi", none⟩, ⟨"", some GoErr.eof⟩]).2 = none := by
  have h := proxyOut_spec [⟨"hi", none⟩, ⟨"", some GoErr.eof⟩] (by decide)
  exact ⟨h.1.trans (by decide), h.2.2.1.mpr (by decide)⟩

/-- The pump reads everything when no read before the last errs. -/
theorem readsToErr_append_clean (pre : List ReadRes) (x : ReadRes)
    (hpre : ∀ r ∈ pre, r.err = none) :
    readsToErr (pre ++ [x]) = pre ++ [x] := by
  induction pre with
  | nil =>
      rcases hxe : x.err with _ | e <;> simp [readsToErr, hxe]
  | cons a rest ih =>
      have ha : a.err = none := hpre a (List.mem_cons_self _ _)
      simp only [List.cons_append, readsToErr, ha, List.append_eq]
      rw [ih (fun r hr => hpre r (List.mem_cons_of_mem _ hr))]

/-- The terminal error of a clean script ending in an erroring read. -/
theorem scriptErr_append_clean (pre : List ReadRes) (d : String) (e : GoErr)
    (hpre : ∀ r ∈ pre, r.err = none) :
    scriptErr (pre ++ [⟨d, some e⟩]) = e := by
  induction pre with
  | nil => simp [scriptErr]
  | cons a rest ih =>
      have ha : a.err = none := hpre a (List.mem_cons_self _ _)
      simp only [List.cons_append, scriptErr, ha]
      exact ih (fun r hr => hpre r (List.mem_cons_of_mem _ hr))

/-- Claim C10: when a read returns data together with an error (such as
data delivered alongside EOF) in a run whose context is not yet
cancelled, the chunk is delivered to the operator-output channel — as the
final delivered record — before the error is acted on, so the final
partial chunk of target output is not dropped. -/
theorem proxyOut_final_chunk (pre : List ReadRes) (d : String) (e : GoErr)
    (hpre : ∀ r ∈ pre, r.err = none) (hd : d ≠ "") :
    (proxyOutRun (pre ++ [⟨d, some e⟩])).1.getLast? =
      some (mkPlainCLine d) := by
  have hr := readsToErr_append_clean pre (ReadRes.mk d (some e)) hpre
  have h1 : (proxyOutRun (pre ++ [ReadRes.mk d (some e)])).1 =
      ((((pre ++ [ReadRes.mk d (some e)]).map ReadRes.data).filter
        (fun s => s != "")).map mkPlainCLine) := by
    simp only [proxyOutRun, proxyOutLoop_pump, hr]
  rw [h1, List.map_append, List.filter_append, List.map_append]
  have hfd : List.filter (fun s => s != "")
      (List.map ReadRes.data [ReadRes.mk d (some e)]) = [d] := by
    simp [hd]
  rw [hfd]
  simp only [List.map_cons, List.map_nil]
  exact List.getLast?_concat _

/-- Witness for claim C10: the chunk `tail` arriving together with EOF is
still delivered, as the last record. -/
theorem proxyOut_final_chunk_witness :
    (proxyOutRun ([⟨"a", none⟩] ++ [⟨"tail", some GoErr.eof⟩])).1.getLast? =
      some (mkPlainCLine "tail") :=
  proxyOut_final_chunk [⟨"a", none⟩] "tail" GoErr.eof (by decide) (by decide)

/-- A base-36 digit character decodes to its value. -/
theorem digitVal36_digit36 (m : Nat) (hm : m < 36) :
    digitVal36 (digit36 m) = m := by
  interval_cases m <;> decide

/-- Appending a digit multiplies the value by the base and adds the
digit. -/
theorem val36_append (l : List Char) (c : Char) :
    val36 (l ++ [c]) = 36 * val36 l + digitVal36 c := by
  simp [val36, List.foldl_append]

/-- The base-36 digits produced by repeated division decode back to the
encoded number. -/
theorem val36_toBase36 (n : Nat) : val36 (toBase36 n) = n := by
  induction n using Nat.strong_induction_on with
  | _ n ih =>
    rw [toBase36]
    split
    · rename_i h
      simp [val36, digitVal36_digit36 n h]
    · rename_i h
      rw [val36_append, ih (n / 36) (Nat.div_lt_self (by omega) (by omega)),
        digitVal36_digit36 (n % 36) (Nat.mod_lt _ (by omega))]
      omega

/-- Claim C7: each `GET /c` renders the bootstrap script with a session
ID that is the base-36 encoding of the 64-bit random draw (it decodes
back to the draw), the listener fingerprint, and a callback URL chosen in
order from the `c2` query/form parameter, the `c2` header, the punycoded
Host header, then the TLS SNI with the listen port appended when it is
not 443; a template read/parse or render failure gives 500, and when no
callback URL can be determined the response is 400. -/
theorem scriptHandler_spec (tmplErr renderErr : Bool)
    (idna : String → Option String) (lp fp : String) (rv : Nat)
    (r : ScriptReq) :
    (tmplErr = true →
      scriptHandler tmplErr renderErr idna lp fp rv r =
        ScriptResp.internalError) ∧
    (tmplErr = false → ∀ er, c2URL idna lp r = .error er →
      scriptHandler tmplErr renderErr idna lp fp rv r =
        ScriptResp.badRequest) ∧
    (tmplErr = false → renderErr = true → ∀ u, c2URL idna lp r = .ok u →
      scriptHandler tmplErr renderErr idna lp fp rv r =
        ScriptResp.internalError) ∧
    (tmplErr = false → renderErr = false → ∀ u, c2URL idna lp r = .ok u →
      scriptHandler tmplErr renderErr idna lp fp rv r =
        ScriptResp.ok ⟨fp, u, formatUint36 rv⟩ ∧
      val36 (formatUint36 rv).toList = rv) ∧
    (r.parseFormErr = false → r.formC2 ≠ "" →
      c2URL idna lp r = .ok r.formC2) ∧
    (r.parseFormErr = false → r.formC2 = "" → r.headerC2 ≠ "" →
      c2URL idna lp r = .ok r.headerC2) ∧
    (r.parseFormErr = false → r.formC2 = "" → r.headerC2 = "" →
      ∀ p, idna r.host = some p → p ≠ "" → c2URL idna lp r = .ok p) ∧
    (r.parseFormErr = false → r.formC2 = "" → r.headerC2 = "" →
      idna r.host = some "" → r.sni ≠ "" →
      c2URL idna lp r =
        .ok (if lp ≠ "443" then joinHostPort r.sni lp else r.sni)) ∧
    (r.parseFormErr = false → r.formC2 = "" → r.headerC2 = "" →
      idna r.host = some "" → r.sni = "" →
      c2URL idna lp r = .error C2Err.outOfIdeas) := by
  refine ⟨?_, ?_, ?_, ?_, ?_, ?_, ?_, ?_, ?_⟩
  · intro ht
    simp [scriptHandler, ht]
  · intro ht er her
    simp [scriptHandler, ht, her]
  · intro ht hr u hu
    simp [scriptHandler, ht, hr, hu]
  · intro ht hr u hu
    refine ⟨by simp [scriptHandler, ht, hr, hu], ?_⟩
    show val36 (String.mk (toBase36 rv)).toList = rv
    exact val36_toBase36 rv
  · intro hp hf
    simp [c2URL, hp, hf]
  · intro hp hf hh
    simp [c2URL, hp, hf, hh]
  · intro hp hf hh p hid hpne
    simp [c2URL, hp, hf, hh, hid, hpne]
  · intro hp hf hh hid hs
    by_cases hlp : lp = "443"
    · simp [c2URL, hp, hf, hh, hid, hs, hlp]
    · simp [c2URL, hp, hf, hh, hid, hs, hlp]
  · intro hp hf hh hid hs
    simp [c2URL, hp, hf, hh, hid, hs]

/-- Witness for claim C7: with the `c2` query parameter set, the script
is rendered with the fingerprint, that URL, and the base-36 session ID of
the draw 12345, which decodes back to 12345. -/
theorem scriptHandler_spec_witness :
    scriptHandler false false (fun s => some s) "8080" "FP" 12345
      ⟨false, "https://example", "", "", ""⟩ =
      ScriptResp.ok ⟨"FP", "https://example", formatUint36 12345⟩ ∧
    val36 (formatUint36 12345).toList = 12345 :=
  (scriptHandler_spec false false (fun s => some s) "8080" "FP" 12345
    ⟨false, "https://example", "", "", ""⟩).2.2.2.1 rfl rfl
    "https://example" rfl

/-- Loading the archive that `SaveCertificate` writes for a parseable PEM
pair recovers the very certificate the generation built. -/
theorem loadCached_save (L : CryptoLib) (p1 p2 : Bytes) (c : TLSCert)
    (hp1 : p1 ≠ []) (hp2 : p2 ≠ [])
    (hkp : keyPairWithLeaf L p1 p2 = some c) :
    loadCachedCertificate L (some (saveCertificate p1 p2)) = .ok c := by
  have hcert : findArchiveFile (saveCertificate p1 p2) txtarCertFile = p1 := by
    simp [findArchiveFile, saveCertificate, txtarCertFile, txtarKeyFile]
  have hkey : findArchiveFile (saveCertificate p1 p2) txtarKeyFile = p2 := by
    simp [findArchiveFile, saveCertificate, txtarCertFile, txtarKeyFile]
  rcases hx : L.x509KeyPair p1 p2 with _ | der0
  · simp [keyPairWithLeaf, hx] at hkp
  · rcases hpc : L.parseCert der0 with _ | leaf
    · simp [keyPairWithLeaf, hx, hpc] at hkp
    · simp only [keyPairWithLeaf, hx, hpc, Option.some.injEq] at hkp
      simp [loadCachedCertificate, hcert, hkey, hp1, hp2, hx, hpc, hkp]

/-- Claim C8: the fingerprint of a certificate is the base64 encoding of
the SHA-256 hash of the DER-encoded SubjectPublicKeyInfo of its leaf, and
generating a certificate whose cert-file does not exist yet, saving it,
re-loading it from the saved archive, and extracting the fingerprint
yields the very same certificate and hence the same fingerprint as the
freshly generated one. -/
theorem cert_fingerprint_roundtrip :
    (∀ (L : CryptoLib) (c : TLSCert) (leaf : X509Leaf) (der : Bytes),
      c.leaf = some leaf → L.marshalPKIX leaf.pub = some der →
      pubkeyFingerprintTLS L c = some (L.b64 (L.sha256sum der))) ∧
    (∀ (L : CryptoLib) (p1 p2 : Bytes) (c : TLSCert),
      p1 ≠ [] → p2 ≠ [] → keyPairWithLeaf L p1 p2 = some c →
      getCertificate L (some none) (p1, p2) =
        .ok (c, some (some (saveCertificate p1 p2))) ∧
      loadCachedCertificate L (some (saveCertificate p1 p2)) = .ok c) ∧
    (∀ (L : CryptoLib) (p1 p2 : Bytes) (c c' : TLSCert),
      p1 ≠ [] → p2 ≠ [] → keyPairWithLeaf L p1 p2 = some c →
      loadCachedCertificate L (some (saveCertificate p1 p2)) = .ok c' →
      pubkeyFingerprintTLS L c' = pubkeyFingerprintTLS L c) := by
  refine ⟨?_, ?_, ?_⟩
  · intro L c leaf der hleaf hder
    simp [pubkeyFingerprintTLS, hleaf, pubkeyFingerprint, hder]
  · intro L p1 p2 c hp1 hp2 hkp
    refine ⟨?_, loadCached_save L p1 p2 c hp1 hp2 hkp⟩
    simp [getCertificate, loadCachedCertificate, hkp]
  · intro L p1 p2 c c' hp1 hp2 hkp hload
    have h := loadCached_save L p1 p2 c hp1 hp2 hkp
    rw [h] at hload
    simp only [Except.ok.injEq] at hload
    rw [hload]

/-- Witness for claim C8: with a toy crypto library, the archive saved
for the PEM pair `[1]` and `[2]` loads back to the generated
certificate. -/
theorem cert_fingerprint_roundtrip_witness :
    loadCachedCertificate
      ⟨fun n => some [n], fun b => b, fun _ => "fp",
       fun cb kb => some (cb ++ kb), fun b => some ⟨b.length⟩⟩
      (some (saveCertificate [1] [2])) =
      .ok ⟨[1, 2], some ⟨2⟩⟩ :=
  (cert_fingerprint_roundtrip.2.1
    ⟨fun n => some [n], fun b => b, fun _ => "fp",
     fun cb kb => some (cb ++ kb), fun b => some ⟨b.length⟩⟩
    [1] [2] ⟨[1, 2], some ⟨2⟩⟩ (by decide) (by decide) rfl).2

/-- Claim C9 counterexample: the three corruption failures of
`LoadCachedCertificate` are distinct formatted error values — an archive
with only a key field fails with the missing-cert error, an archive with
only a cert field fails with the missing-key error, and these are
different errors — so there is no single sentinel error value
(`ErrCertFileCorrupt` does not exist in the source). -/
theorem certfile_corrupt_counterexample :
    loadCachedCertificate
      ⟨fun n => some [n], fun b => b, fun _ => "fp",
       fun cb kb => some (cb ++ kb), fun b => some ⟨b.length⟩⟩
      (some ⟨[("key", [1])]⟩) = .error LoadErr.missingCert ∧
    loadCachedCertificate
      ⟨fun n => some [n], fun b => b, fun _ => "fp",
       fun cb kb => some (cb ++ kb), fun b => some ⟨b.length⟩⟩
      (some ⟨[("cert", [1])]⟩) = .error LoadErr.missingKey ∧
    LoadErr.missingCert ≠ LoadErr.missingKey :=
  ⟨rfl, rfl, by decide⟩

/-- Claim C9 (amended): a missing cert-file is not an error — the
certificate is generated and saved; an existing archive lacking the cert
field fails with the missing-cert error, one lacking the key field with
the missing-key error, and an unparseable key pair with the
key-pair-parse error, each surfaced by `GetCertificate` as a distinct
corrupt-load failure rather than one shared sentinel. -/
theorem getCertificate_missing_and_corrupt :
    (∀ (L : CryptoLib) (p1 p2 : Bytes) (c : TLSCert),
      keyPairWithLeaf L p1 p2 = some c →
      getCertificate L (some none) (p1, p2) =
        .ok (c, some (some (saveCertificate p1 p2)))) ∧
    (∀ (L : CryptoLib) (ta : TxtArchive) (g : Bytes × Bytes),
      findArchiveFile ta txtarCertFile = [] →
      loadCachedCertificate L (some ta) = .error LoadErr.missingCert ∧
      getCertificate L (some (some ta)) g =
        .error (GetErr.loadCorrupt LoadErr.missingCert)) ∧
    (∀ (L : CryptoLib) (ta : TxtArchive) (g : Bytes × Bytes),
      findArchiveFile ta txtarCertFile ≠ [] →
      findArchiveFile ta txtarKeyFile = [] →
      loadCachedCertificate L (some ta) = .error LoadErr.missingKey ∧
      getCertificate L (some (some ta)) g =
        .error (GetErr.loadCorrupt LoadErr.missingKey)) ∧
    (∀ (L : CryptoLib) (ta : TxtArchive) (g : Bytes × Bytes),
      findArchiveFile ta txtarCertFile ≠ [] →
      findArchiveFile ta txtarKeyFile ≠ [] →
      L.x509KeyPair (findArchiveFile ta txtarCertFile)
        (findArchiveFile ta txtarKeyFile) = none →
      loadCachedCertificate L (some ta) = .error LoadErr.keyPairParse ∧
      getCertificate L (some (some ta)) g =
        .error (GetErr.loadCorrupt LoadErr.keyPairParse)) := by
  refine ⟨?_, ?_, ?_, ?_⟩
  · intro L p1 p2 c hkp
    simp [getCertificate, loadCachedCertificate, hkp]
  · intro L ta g hcert
    have hl : loadCachedCertificate L (some ta) =
        .error LoadErr.missingCert := by
      simp [loadCachedCertificate, hcert]
    exact ⟨hl, by simp [getCertificate, hl]⟩
  · intro L ta g hcert hkey
    have hl : loadCachedCertificate L (some ta) =
        .error LoadErr.missingKey := by
      simp [loadCachedCertificate, hcert, hkey]
    exact ⟨hl, by simp [getCertificate, hl]⟩
  · intro L ta g hcert hkey hx
    have hl : loadCachedCertificate L (some ta) =
        .error LoadErr.keyPairParse := by
      simp [loadCachedCertificate, hcert, hkey, hx]
    exact ⟨hl, by simp [getCertificate, hl]⟩

/-- Witness for the amended claim C9: an empty archive fails to load with
the missing-cert error, and `GetCertificate` surfaces it. -/
theorem getCertificate_missing_and_corrupt_witness :
    loadCachedCertificate
      ⟨fun n => some [n], fun b => b, fun _ => "fp",
       fun cb kb => some (cb ++ kb), fun b => some ⟨b.length⟩⟩
      (some ⟨[]⟩) = .error LoadErr.missingCert :=
  (getCertificate_missing_and_corrupt.2.1
    ⟨fun n => some [n], fun b => b, fun _ => "fp",
     fun cb kb => some (cb ++ kb), fun b => some ⟨b.length⟩⟩
    ⟨[]⟩ ([], []) rfl).1
